import Mathlib

/-!
Verification of the ordered-position reordering subsystem of the kanban
project tracker: the cards table, the move endpoint
(`src/app/api/cards/move/route.ts`, handler `PUT`), the client-side
optimistic reorder (`handleMoveCard` in the board page), and the store
helpers `createCard` / `deleteCard` (`src/project-tracker/lib/db.ts`).

The store is modelled as a list of card rows; each SQL `UPDATE ... WHERE`
becomes a `List.map` guarded by the `WHERE` condition, `SELECT ... WHERE
id = ?` becomes `List.find?`, and `DELETE` becomes `List.filter`.
-/

/-- A row of the `cards` table (`lib/db.ts`, interface `Card`).
`id` is the `INTEGER PRIMARY KEY`; timestamps are omitted (never read or
written by the reordering logic). -/
structure Card where
  id : Int
  board_id : Int
  title : String
  description : Option String
  assignee : Option String
  priority : String
  status : String
  position : Int
  deriving DecidableEq, Repr

/-- `UPDATE cards SET position = p` on one row. -/
def setPos (c : Card) (p : Int) : Card :=
  ⟨c.id, c.board_id, c.title, c.description, c.assignee, c.priority, c.status, p⟩

/-- `UPDATE cards SET priority = pr, position = p` on one row. -/
def setPrioPos (c : Card) (pr : String) (p : Int) : Card :=
  ⟨c.id, c.board_id, c.title, c.description, c.assignee, pr, c.status, p⟩

/-- HTTP outcome of the move endpoint: 200 success, 400 missing fields,
404 card not found. -/
inductive MoveStatus where
  | ok
  | badRequest
  | notFound
  deriving DecidableEq, Repr

/-- JavaScript truthiness of a nullable number (`!x` is true for
`undefined`, `null` and `0`). -/
def truthyInt : Option Int → Bool
  | none => false
  | some v => v != 0

/-- JavaScript truthiness of a nullable string (`!s` is true for
`undefined`, `null` and the empty string). -/
def truthyStr : Option String → Bool
  | none => false
  | some s => s != ""

/-- The endpoint's 400 guard:
`if (!cardId || !boardId || !newPriority || newPosition === undefined)`. -/
def missingFields (cardId boardId : Option Int) (newPriority : Option String)
    (newPosition : Option Int) : Bool :=
  !truthyInt cardId || !truthyInt boardId || !truthyStr newPriority || newPosition.isNone

/-- The sibling-shift phase of the move endpoint: the `UPDATE ... SET
position = position ± 1` statements of `route.ts`, with the same `WHERE`
clauses (all scoped by the request's `boardId`). -/
def moveShift (db : List Card) (bid : Int) (oldP : String) (oldPos : Int)
    (newP : String) (newPos : Int) : List Card :=
  if oldP ≠ newP then
    -- UPDATE ... position = position - 1 WHERE board_id = ? AND priority = ? AND position > ?
    -- UPDATE ... position = position + 1 WHERE board_id = ? AND priority = ? AND position >= ?
    (db.map (fun c =>
      if c.board_id = bid ∧ c.priority = oldP ∧ oldPos < c.position
      then setPos c (c.position - 1) else c)).map (fun c =>
        if c.board_id = bid ∧ c.priority = newP ∧ newPos ≤ c.position
        then setPos c (c.position + 1) else c)
  else
    if oldPos < newPos then
      db.map (fun c =>
        if c.board_id = bid ∧ c.priority = oldP ∧ oldPos < c.position ∧ c.position ≤ newPos
        then setPos c (c.position - 1) else c)
    else if newPos < oldPos then
      db.map (fun c =>
        if c.board_id = bid ∧ c.priority = oldP ∧ newPos ≤ c.position ∧ c.position < oldPos
        then setPos c (c.position + 1) else c)
    else db

/-- The move endpoint `PUT /api/cards/move` (`route.ts`), translated
statement by statement.  The request body fields are `Option`s because a
JSON body may omit any of them.  Returns the HTTP outcome and the store
after all `UPDATE`s. -/
def movePUT (db : List Card) (cardId boardId : Option Int)
    (newPriority : Option String) (newPosition : Option Int) :
    MoveStatus × List Card :=
  if missingFields cardId boardId newPriority newPosition then (.badRequest, db)
  else
    match db.find? (fun c => decide (c.id = cardId.getD 0)) with
    | none => (.notFound, db)
    | some card =>
      -- shift siblings, then
      -- UPDATE cards SET priority = ?, position = ? WHERE id = ?
      (.ok, (moveShift db (boardId.getD 0) card.priority card.position
          (newPriority.getD "") (newPosition.getD 0)).map (fun c =>
        if c.id = cardId.getD 0
        then setPrioPos c (newPriority.getD "") (newPosition.getD 0) else c))

/-- The client's optimistic prediction, from `handleMoveCard` in the board
page: the `cards.find` lookup followed by the single `updatedCards` map,
branch for branch. -/
def optimisticCards (cards : List Card) (cardId : Int) (newPriority : String)
    (newPosition : Int) : List Card :=
  match cards.find? (fun c => decide (c.id = cardId)) with
  | none => cards
  | some card =>
    cards.map (fun c =>
      if c.id = cardId then setPrioPos c newPriority newPosition
      else if card.priority ≠ newPriority ∧ c.priority = card.priority
          ∧ card.position < c.position then
        setPos c (c.position - 1)
      else if card.priority ≠ newPriority ∧ c.priority = newPriority
          ∧ newPosition ≤ c.position then
        setPos c (c.position + 1)
      else if card.priority = newPriority ∧ c.priority = card.priority then
        if card.position < newPosition ∧ card.position < c.position
            ∧ c.position ≤ newPosition then
          setPos c (c.position - 1)
        else if newPosition < card.position ∧ newPosition ≤ c.position
            ∧ c.position < card.position then
          setPos c (c.position + 1)
        else c
      else c)

/-- The rows of one column group: `cards WHERE board_id = ? AND priority = ?`. -/
def groupCards (db : List Card) (b : Int) (p : String) : List Card :=
  db.filter (fun c => decide (c.board_id = b ∧ c.priority = p))

/-- The positions held inside one column group. -/
def groupPos (db : List Card) (b : Int) (p : String) : List Int :=
  (groupCards db b p).map (fun c => c.position)

/-- A list of positions is dense when it is exactly `{0, …, n−1}` (as a
multiset): no duplicates, no gaps, zero-based. -/
def dense (l : List Int) : Prop :=
  List.Perm l ((List.range l.length).map Int.ofNat)

instance denseDecidable (l : List Int) : Decidable (dense l) :=
  List.decidablePerm l ((List.range l.length).map Int.ofNat)

/-- The position invariant for one column group. -/
def invariantGroup (db : List Card) (b : Int) (p : String) : Prop :=
  dense (groupPos db b p)

instance invariantGroupDecidable (db : List Card) (b : Int) (p : String) :
    Decidable (invariantGroup db b p) :=
  denseDecidable (groupPos db b p)

/-- The position invariant over the whole store: every column group is a
contiguous zero-based permutation. -/
def invariant (db : List Card) : Prop :=
  ∀ b p, invariantGroup db b p

/-- `SELECT MAX(position) ... WHERE board_id = ? AND priority = ?` —
`none` models SQL `NULL` on an empty group. -/
def sqlMaxPos (db : List Card) (bid : Int) (p : String) : Option Int :=
  ((groupCards db bid p).map (fun c => c.position)).max?

/-- JavaScript `x || d` on a nullable number: `null`, `undefined` and `0`
are all falsy and fall through to the default. -/
def jsNumOr (x : Option Int) (d : Int) : Int :=
  match x with
  | none => d
  | some v => if v = 0 then d else v

/-- `createCard` from `lib/db.ts`: reads `MAX(position)` of the target
group, computes `(max_pos || -1) + 1`, and inserts the new row.  `newId`
models the `AUTOINCREMENT` primary key handed out by the store. -/
def createCard (db : List Card) (newId bid : Int) (title : String)
    (description assignee : Option String) (priority status : String) : List Card :=
  let position := jsNumOr (sqlMaxPos db bid priority) (-1) + 1
  db ++ [⟨newId, bid, title, description, assignee, priority, status, position⟩]

/-- `deleteCard` from `lib/db.ts`: `DELETE FROM cards WHERE id = ?` and
nothing else. -/
def deleteCard (db : List Card) (cid : Int) : List Card :=
  db.filter (fun c => decide (¬ c.id = cid))

/-- The per-row effect of a successful move, read off the endpoint's
`UPDATE` statements: the moved row takes the new priority and position;
otherwise a cross-column move closes the gap in the source group and opens
a slot in the target group, and a same-column move shifts exactly the rows
strictly between the old and new position (inclusive on the target side). -/
def moveFn (cid bid : Int) (oldP : String) (oldPos : Int) (newP : String)
    (newPos : Int) (c : Card) : Card :=
  if c.id = cid then setPrioPos c newP newPos
  else if oldP ≠ newP then
    if c.board_id = bid ∧ c.priority = oldP ∧ oldPos < c.position then
      setPos c (c.position - 1)
    else if c.board_id = bid ∧ c.priority = newP ∧ newPos ≤ c.position then
      setPos c (c.position + 1)
    else c
  else
    if c.board_id = bid ∧ c.priority = oldP ∧ oldPos < c.position ∧ c.position ≤ newPos then
      setPos c (c.position - 1)
    else if c.board_id = bid ∧ c.priority = oldP ∧ newPos ≤ c.position ∧ c.position < oldPos then
      setPos c (c.position + 1)
    else c

/-- A sample card for concrete test states. -/
def mkCard (i b : Int) (p : String) (pos : Int) : Card :=
  ⟨i, b, "t", none, none, p, "not_started", pos⟩

@[simp] theorem setPos_id (c : Card) (p : Int) : (setPos c p).id = c.id := rfl

@[simp] theorem setPos_board_id (c : Card) (p : Int) : (setPos c p).board_id = c.board_id := rfl

@[simp] theorem setPos_priority (c : Card) (p : Int) : (setPos c p).priority = c.priority := rfl

@[simp] theorem setPos_position (c : Card) (p : Int) : (setPos c p).position = p := rfl

@[simp] theorem setPrioPos_id (c : Card) (pr : String) (p : Int) :
    (setPrioPos c pr p).id = c.id := rfl

@[simp] theorem setPrioPos_board_id (c : Card) (pr : String) (p : Int) :
    (setPrioPos c pr p).board_id = c.board_id := rfl

@[simp] theorem setPrioPos_priority (c : Card) (pr : String) (p : Int) :
    (setPrioPos c pr p).priority = pr := rfl

@[simp] theorem setPrioPos_position (c : Card) (pr : String) (p : Int) :
    (setPrioPos c pr p).position = p := rfl

@[simp] theorem setPrioPos_setPos (c : Card) (q : Int) (pr : String) (p : Int) :
    setPrioPos (setPos c q) pr p = setPrioPos c pr p := rfl

theorem setPrioPos_self (c : Card) : setPrioPos c c.priority c.position = c := rfl

/-- The whole-store invariant only has content on the groups of cards
actually present; this decidable reformulation quantifies over members. -/
theorem invariant_iff_on (db : List Card) :
    invariant db ↔ ∀ c ∈ db, invariantGroup db c.board_id c.priority := by
  constructor
  · intro h c _
    exact h c.board_id c.priority
  · intro h b p
    by_cases hg : groupCards db b p = []
    · unfold invariantGroup groupPos
      rw [hg]
      exact List.Perm.refl _
    · obtain ⟨c, hc⟩ := List.exists_mem_of_ne_nil _ hg
      have hm := List.mem_filter.mp hc
      have hgrp : c.board_id = b ∧ c.priority = p := by
        simpa using hm.2
      have := h c hm.1
      rwa [hgrp.1, hgrp.2] at this

/-- How many times an integer occurs among `(0 : Int), …, n−1`. -/
theorem count_rangeInt (n : Nat) (k : Int) :
    ((List.range n).map Int.ofNat).count k
      = if 0 ≤ k ∧ k < (n : Int) then 1 else 0 := by
  induction n with
  | zero =>
    simp only [List.range_zero, List.map_nil, List.count_nil, Nat.cast_zero]
    rw [if_neg (by omega)]
  | succ n ih =>
    rw [List.range_succ, List.map_append, List.count_append, ih]
    simp only [List.map_cons, List.map_nil, List.count_singleton]
    split_ifs with h1 h2 h3 h2 h3 <;> simp_all <;> omega

/-- Density of a position list, characterised by occurrence counts. -/
theorem dense_iff_count (l : List Int) :
    dense l ↔ ∀ k : Int, l.count k = if 0 ≤ k ∧ k < (l.length : Int) then 1 else 0 := by
  unfold dense
  rw [List.perm_iff_count]
  constructor
  · intro h k
    rw [h k, count_rangeInt]
  · intro h k
    rw [h k, count_rangeInt]

/-- With distinct primary keys, two rows sharing an id are the same row. -/
theorem eq_of_mem_id {db : List Card} (hnd : (db.map (fun c => c.id)).Nodup)
    {c d : Card} (hc : c ∈ db) (hd : d ∈ db) (h : c.id = d.id) : c = d :=
  List.inj_on_of_nodup_map hnd hc hd h

/-- `SELECT ... WHERE id = ?` finds exactly the member row with that id. -/
theorem find?_id_eq {db : List Card} (hnd : (db.map (fun c => c.id)).Nodup)
    {c₀ : Card} (hmem : c₀ ∈ db) :
    db.find? (fun c => decide (c.id = c₀.id)) = some c₀ := by
  cases hfind : db.find? (fun c => decide (c.id = c₀.id)) with
  | none =>
    rw [List.find?_eq_none] at hfind
    exact absurd (by simp) (hfind c₀ hmem)
  | some d =>
    have hdmem := List.mem_of_find?_eq_some hfind
    have hdid : d.id = c₀.id := by
      simpa using List.find?_some hfind
    rw [eq_of_mem_id hnd hdmem hmem hdid]

/-- Split a `countP` by an auxiliary decidable test. -/
theorem countP_split {α : Type} (l : List α) (P Q : α → Bool) :
    l.countP P = l.countP (fun a => P a && Q a) + l.countP (fun a => P a && !Q a) := by
  induction l with
  | nil => simp
  | cons a l ih =>
    simp only [List.countP_cons, ih]
    by_cases h : P a = true <;> by_cases h2 : Q a = true <;> simp [h, h2] <;> omega

/-- With distinct ids, a `countP` restricted to one id collapses to the
test on that single row. -/
theorem countP_key {db : List Card} {c₀ : Card}
    (hnd : (db.map (fun c => c.id)).Nodup) (hmem : c₀ ∈ db) (R : Card → Bool) :
    db.countP (fun c => decide (c.id = c₀.id) && R c) = if R c₀ then 1 else 0 := by
  induction db with
  | nil => cases hmem
  | cons d l ih =>
    rw [List.map_cons, List.nodup_cons] at hnd
    rcases List.mem_cons.mp hmem with rfl | hmem'
    · have hzero : l.countP (fun c => decide (c.id = c₀.id) && R c) = 0 := by
        rw [List.countP_eq_zero]
        intro a ha
        simp only [Bool.and_eq_true, decide_eq_true_eq, not_and]
        intro hid
        exact absurd (by rw [← hid]; exact List.mem_map_of_mem (fun c => c.id) ha) hnd.1
      rw [List.countP_cons, hzero]
      simp
    · have hne : d.id ≠ c₀.id := by
        intro h
        exact hnd.1 (h ▸ List.mem_map_of_mem (fun c => c.id) hmem')
      rw [List.countP_cons, ih hnd.2 hmem']
      simp [hne]

/-- Occurrences of a position inside a group, as a `countP` over the
whole store. -/
theorem count_groupPos (db : List Card) (b : Int) (p : String) (k : Int) :
    (groupPos db b p).count k
      = db.countP (fun c => decide ((c.board_id = b ∧ c.priority = p) ∧ c.position = k)) := by
  unfold groupPos groupCards
  rw [List.count_eq_countP, List.countP_map, List.countP_filter]
  apply List.countP_congr
  intro c _
  simp only [Function.comp_apply, Bool.and_eq_true, beq_iff_eq, decide_eq_true_eq]
  tauto

/-- A position predicate counted inside a group, as a `countP` over the
whole store. -/
theorem countP_groupPos (db : List Card) (b : Int) (p : String) (Q : Int → Bool) :
    (groupPos db b p).countP Q
      = db.countP (fun c => decide (c.board_id = b ∧ c.priority = p) && Q c.position) := by
  unfold groupPos groupCards
  rw [List.countP_map, List.countP_filter]
  apply List.countP_congr
  intro c _
  simp only [Function.comp_apply, Bool.and_eq_true, decide_eq_true_eq]
  tauto

/-- Size of a group as a `countP` over the store. -/
theorem length_groupCards (db : List Card) (b : Int) (p : String) :
    (groupCards db b p).length
      = db.countP (fun c => decide (c.board_id = b ∧ c.priority = p)) :=
  (List.countP_eq_length_filter _ _).symm

/-- Counting helper: a `countP` of a disjunction of mutually exclusive
tests splits into a sum. -/
theorem countP_disjoint_or {α : Type} (l : List α) (A B : α → Bool)
    (h : ∀ x, ¬(A x = true ∧ B x = true)) :
    l.countP (fun x => A x || B x) = l.countP A + l.countP B := by
  induction l with
  | nil => simp
  | cons a l ih =>
    rw [List.countP_cons, List.countP_cons, List.countP_cons, ih]
    have := h a
    by_cases hA : A a = true <;> by_cases hB : B a = true <;> simp [hA, hB] at this ⊢ <;> omega

/-- A `countP` pinned to one value collapses to a `count`. -/
theorem countP_and_eq (l : List Int) (cond : Int → Prop) [DecidablePred cond] (a : Int) :
    l.countP (fun x => decide (cond x) && decide (x = a)) = if cond a then l.count a else 0 := by
  by_cases h : cond a
  · rw [if_pos h, List.count_eq_countP]
    apply List.countP_congr
    intro x _
    simp only [Bool.and_eq_true, decide_eq_true_eq, beq_iff_eq]
    constructor
    · rintro ⟨-, h2⟩
      exact h2
    · rintro rfl
      exact ⟨h, rfl⟩
  · rw [if_neg h, List.countP_eq_zero]
    intro x _
    simp only [Bool.and_eq_true, decide_eq_true_eq, not_and]
    rintro h1 rfl
    exact h h1

/-- A `countP` pinned to one value, negative-test version. -/
theorem countP_notand_eq (l : List Int) (cond : Int → Prop) [DecidablePred cond] (a : Int) :
    l.countP (fun x => !(decide (cond x)) && decide (x = a))
      = if ¬ cond a then l.count a else 0 := by
  by_cases h : cond a
  · rw [if_neg (by simpa using h), List.countP_eq_zero]
    intro x _
    simp only [Bool.and_eq_true, Bool.not_eq_true', decide_eq_false_iff_not, decide_eq_true_eq, not_and]
    rintro h1 rfl
    exact h1 h
  · rw [if_pos h, List.count_eq_countP]
    apply List.countP_congr
    intro x _
    simp only [Bool.and_eq_true, Bool.not_eq_true', decide_eq_false_iff_not, decide_eq_true_eq, beq_iff_eq]
    constructor
    · rintro ⟨-, h2⟩
      exact h2
    · rintro rfl
      exact ⟨h, rfl⟩

/-- Occurrences of `k` after a guarded decrement, in terms of the
original occurrence counts. -/
theorem countP_shiftdown (l : List Int) (cond : Int → Prop) [DecidablePred cond] (k : Int) :
    l.countP (fun x => decide ((if cond x then x - 1 else x) = k))
      = (if cond (k + 1) then l.count (k + 1) else 0)
        + (if ¬ cond k then l.count k else 0) := by
  have hbody : ∀ x : Int, (decide ((if cond x then x - 1 else x) = k))
      = ((decide (cond x) && decide (x = k + 1)) || (!(decide (cond x)) && decide (x = k))) := by
    intro x
    by_cases h : cond x <;> simp [h] <;> omega
  rw [List.countP_congr (fun x _ => by rw [hbody x])]
  rw [countP_disjoint_or]
  · rw [countP_and_eq, countP_notand_eq]
  · intro x
    simp only [Bool.and_eq_true, Bool.not_eq_true', decide_eq_false_iff_not, decide_eq_true_eq, not_and]
    rintro ⟨h1, rfl⟩ h2
    exact absurd h1 h2

/-- Occurrences of `k` after a guarded increment, in terms of the
original occurrence counts. -/
theorem countP_shiftup (l : List Int) (cond : Int → Prop) [DecidablePred cond] (k : Int) :
    l.countP (fun x => decide ((if cond x then x + 1 else x) = k))
      = (if cond (k - 1) then l.count (k - 1) else 0)
        + (if ¬ cond k then l.count k else 0) := by
  have hbody : ∀ x : Int, (decide ((if cond x then x + 1 else x) = k))
      = ((decide (cond x) && decide (x = k - 1)) || (!(decide (cond x)) && decide (x = k))) := by
    intro x
    by_cases h : cond x <;> simp [h] <;> omega
  rw [List.countP_congr (fun x _ => by rw [hbody x])]
  rw [countP_disjoint_or]
  · rw [countP_and_eq, countP_notand_eq]
  · intro x
    simp only [Bool.and_eq_true, Bool.not_eq_true', decide_eq_false_iff_not, decide_eq_true_eq, not_and]
    rintro ⟨h1, rfl⟩ h2
    exact absurd h1 h2
/-- The two-phase `UPDATE` sequence of a move (sibling shifts, then the
moved row's own update) acts on every row like the single per-row function
`moveFn`. -/
theorem moveShift_map (db : List Card) (cid bid : Int) (oldP : String) (oldPos : Int)
    (newP : String) (newPos : Int) :
    (moveShift db bid oldP oldPos newP newPos).map
        (fun c => if c.id = cid then setPrioPos c newP newPos else c)
      = db.map (moveFn cid bid oldP oldPos newP newPos) := by
  unfold moveShift
  by_cases hpp : oldP = newP
  · subst hpp
    rw [if_neg (by simp)]
    by_cases h1 : oldPos < newPos
    · rw [if_pos h1, List.map_map]
      apply List.map_congr_left
      intro c _
      simp only [Function.comp_apply, moveFn]
      split_ifs <;> simp_all <;> omega
    · rw [if_neg h1]
      by_cases h2 : newPos < oldPos
      · rw [if_pos h2, List.map_map]
        apply List.map_congr_left
        intro c _
        simp only [Function.comp_apply, moveFn]
        split_ifs <;> simp_all <;> omega
      · rw [if_neg h2]
        apply List.map_congr_left
        intro c _
        simp only [moveFn]
        split_ifs <;> simp_all <;> omega
  · rw [if_pos hpp, List.map_map, List.map_map]
    apply List.map_congr_left
    intro c _
    simp only [Function.comp_apply, moveFn]
    split_ifs <;> simp_all <;> omega

/-- On a well-formed request whose card lookup succeeds, the endpoint
returns success and rewrites the store by `moveFn`. -/
theorem movePUT_found (db : List Card) (c₀ : Card) (bid : Int) (newP : String) (newPos : Int)
    (hfind : db.find? (fun c => decide (c.id = c₀.id)) = some c₀)
    (h1 : c₀.id ≠ 0) (h2 : bid ≠ 0) (h3 : newP ≠ "") :
    movePUT db (some c₀.id) (some bid) (some newP) (some newPos)
      = (.ok, db.map (moveFn c₀.id bid c₀.priority c₀.position newP newPos)) := by
  unfold movePUT
  have hmf : missingFields (some c₀.id) (some bid) (some newP) (some newPos) = false := by
    simp [missingFields, truthyInt, truthyStr, h1, h2, h3]
  rw [hmf]
  simp only [Bool.false_eq_true, if_false, Option.getD_some]
  rw [hfind]
  show (MoveStatus.ok,
      (moveShift db bid c₀.priority c₀.position newP newPos).map (fun c =>
        if c.id = c₀.id then setPrioPos c newP newPos else c))
    = (MoveStatus.ok, db.map (moveFn c₀.id bid c₀.priority c₀.position newP newPos))
  rw [moveShift_map]

/-- C5: a move request naming a card id not present in the store passes the
field guard, fails the lookup, and returns the 404 error with the store
returned unchanged — no write occurs. -/
theorem C5_move_not_found (db : List Card) (cid bid : Int) (newP : String) (newPos : Int)
    (h1 : cid ≠ 0) (h2 : bid ≠ 0) (h3 : newP ≠ "")
    (habs : ∀ c ∈ db, c.id ≠ cid) :
    movePUT db (some cid) (some bid) (some newP) (some newPos) = (.notFound, db) := by
  unfold movePUT
  have hmf : missingFields (some cid) (some bid) (some newP) (some newPos) = false := by
    simp [missingFields, truthyInt, truthyStr, h1, h2, h3]
  rw [hmf]
  simp only [Bool.false_eq_true, if_false, Option.getD_some]
  have hfind : db.find? (fun c => decide (c.id = cid)) = none := by
    rw [List.find?_eq_none]
    intro c hc
    simpa using habs c hc
  rw [hfind]

/-- Witness for C5 at a concrete store: card id 2 does not exist. -/
theorem C5_move_not_found_witness :
    movePUT [mkCard 1 1 "high" 0] (some 2) (some 1) (some "high") (some 0)
      = (.notFound, [mkCard 1 1 "high" 0]) :=
  C5_move_not_found [mkCard 1 1 "high" 0] 2 1 "high" 0
    (by decide) (by decide) (by decide) (by decide)

/-- C7: moving an existing card onto its own current priority and position
is a no-op — the endpoint reports success and the store, every field of
every card included, is exactly what it was. -/
theorem C7_noop_move (db : List Card) (c₀ : Card)
    (hnd : (db.map (fun c => c.id)).Nodup) (hmem : c₀ ∈ db)
    (h1 : c₀.id ≠ 0) (h2 : c₀.board_id ≠ 0) (h3 : c₀.priority ≠ "") :
    movePUT db (some c₀.id) (some c₀.board_id) (some c₀.priority) (some c₀.position)
      = (.ok, db) := by
  rw [movePUT_found db c₀ c₀.board_id c₀.priority c₀.position (find?_id_eq hnd hmem) h1 h2 h3]
  have hpt : ∀ c ∈ db,
      moveFn c₀.id c₀.board_id c₀.priority c₀.position c₀.priority c₀.position c = c := by
    intro c hc
    unfold moveFn
    by_cases hid : c.id = c₀.id
    · rw [if_pos hid, eq_of_mem_id hnd hc hmem hid]
      exact setPrioPos_self c₀
    · rw [if_neg hid]
      rw [if_neg (show ¬ (c₀.priority ≠ c₀.priority) by simp)]
      rw [if_neg (by rintro ⟨-, -, h4, h5⟩; omega)]
      rw [if_neg (by rintro ⟨-, -, h4, h5⟩; omega)]
  rw [List.map_congr_left hpt, List.map_id']

/-- Witness for C7: a two-card column, moving the second card onto its own
slot changes nothing. -/
theorem C7_noop_move_witness :
    movePUT [mkCard 1 1 "high" 0, mkCard 2 1 "high" 1]
        (some 2) (some 1) (some "high") (some 1)
      = (.ok, [mkCard 1 1 "high" 0, mkCard 2 1 "high" 1]) :=
  C7_noop_move [mkCard 1 1 "high" 0, mkCard 2 1 "high" 1] (mkCard 2 1 "high" 1)
    (by decide) (by decide) (by decide) (by decide) (by decide)

/-- C2: a same-column move (request board = the card's board, target
priority = the card's priority) decrements exactly the siblings with
position in (oldPosition, targetPosition] when moving down, increments
exactly those with position in [targetPosition, oldPosition) when moving
up, assigns the moved card the target position, and leaves every other
card untouched. -/
theorem C2_same_column_shift (db : List Card) (c₀ : Card) (newP : String) (newPos : Int)
    (hnd : (db.map (fun c => c.id)).Nodup) (hmem : c₀ ∈ db)
    (hinv : invariantGroup db c₀.board_id c₀.priority)
    (h1 : c₀.id ≠ 0) (h2 : c₀.board_id ≠ 0) (h3 : newP ≠ "")
    (hsame : c₀.priority = newP) :
    movePUT db (some c₀.id) (some c₀.board_id) (some newP) (some newPos)
      = (.ok, db.map (fun c =>
          if c.id = c₀.id then setPrioPos c newP newPos
          else if c.board_id = c₀.board_id ∧ c.priority = c₀.priority
              ∧ c₀.position < c.position ∧ c.position ≤ newPos then
            setPos c (c.position - 1)
          else if c.board_id = c₀.board_id ∧ c.priority = c₀.priority
              ∧ newPos ≤ c.position ∧ c.position < c₀.position then
            setPos c (c.position + 1)
          else c)) := by
  rw [movePUT_found db c₀ c₀.board_id newP newPos (find?_id_eq hnd hmem) h1 h2 h3]
  apply congrArg (Prod.mk MoveStatus.ok)
  apply List.map_congr_left
  intro c _
  unfold moveFn
  by_cases hid : c.id = c₀.id
  · rw [if_pos hid, if_pos hid]
  · rw [if_neg hid, if_neg hid]
    rw [if_neg (show ¬ (c₀.priority ≠ newP) by simp [hsame])]

/-- Witness for C2 — the spec's own example: group [A:0, B:1, C:2], move B
to position 0 gives [B:0, A:1, C:2]. -/
theorem C2_same_column_shift_witness :
    movePUT [mkCard 1 1 "high" 0, mkCard 2 1 "high" 1, mkCard 3 1 "high" 2]
        (some 2) (some 1) (some "high") (some 0)
      = (.ok, [mkCard 1 1 "high" 1, mkCard 2 1 "high" 0, mkCard 3 1 "high" 2]) :=
  (C2_same_column_shift
    [mkCard 1 1 "high" 0, mkCard 2 1 "high" 1, mkCard 3 1 "high" 2]
    (mkCard 2 1 "high" 1) "high" 0
    (by decide) (by decide) (by decide) (by decide) (by decide) (by decide)
    (by decide)).trans (by decide)

/-- C3: a cross-column move (request board = the card's board, target
priority different from the card's) decrements exactly the source-group
siblings with position above the old position, increments exactly the
target-group siblings with position at or above the target position, gives
the moved card the new priority and position, and leaves every other card
untouched. -/
theorem C3_cross_column_shift (db : List Card) (c₀ : Card) (newP : String) (newPos : Int)
    (hnd : (db.map (fun c => c.id)).Nodup) (hmem : c₀ ∈ db)
    (hinv : invariantGroup db c₀.board_id c₀.priority)
    (h1 : c₀.id ≠ 0) (h2 : c₀.board_id ≠ 0) (h3 : newP ≠ "")
    (hcross : c₀.priority ≠ newP) :
    movePUT db (some c₀.id) (some c₀.board_id) (some newP) (some newPos)
      = (.ok, db.map (fun c =>
          if c.id = c₀.id then setPrioPos c newP newPos
          else if c.board_id = c₀.board_id ∧ c.priority = c₀.priority
              ∧ c₀.position < c.position then
            setPos c (c.position - 1)
          else if c.board_id = c₀.board_id ∧ c.priority = newP
              ∧ newPos ≤ c.position then
            setPos c (c.position + 1)
          else c)) := by
  rw [movePUT_found db c₀ c₀.board_id newP newPos (find?_id_eq hnd hmem) h1 h2 h3]
  apply congrArg (Prod.mk MoveStatus.ok)
  apply List.map_congr_left
  intro c _
  unfold moveFn
  by_cases hid : c.id = c₀.id
  · rw [if_pos hid, if_pos hid]
  · rw [if_neg hid, if_neg hid, if_pos hcross]

/-- Witness for C3 — the spec's own example: source high:[A:0, B:1],
target medium:[X:0]; move A to medium at position 1 gives high:[B:0],
medium:[X:0, A:1]. -/
theorem C3_cross_column_shift_witness :
    movePUT [mkCard 1 1 "high" 0, mkCard 2 1 "high" 1, mkCard 3 1 "medium" 0]
        (some 1) (some 1) (some "medium") (some 1)
      = (.ok, [mkCard 1 1 "medium" 1, mkCard 2 1 "high" 0, mkCard 3 1 "medium" 0]) :=
  (C3_cross_column_shift
    [mkCard 1 1 "high" 0, mkCard 2 1 "high" 1, mkCard 3 1 "medium" 0]
    (mkCard 1 1 "high" 0) "medium" 1
    (by decide) (by decide) (by decide) (by decide) (by decide) (by decide)
    (by decide)).trans (by decide)

/-- C6 counterexample: a request whose priority is the invalid string
"urgent", and one whose position 5 is far outside the one-card group, are
both accepted — no 400 rejection — and both write to the store. -/
theorem C6_counterexample :
    ((movePUT [mkCard 1 1 "high" 0] (some 1) (some 1) (some "urgent") (some 0)).1
        ≠ MoveStatus.badRequest
      ∧ (movePUT [mkCard 1 1 "high" 0] (some 1) (some 1) (some "urgent") (some 0)).2
        ≠ [mkCard 1 1 "high" 0])
    ∧ ((movePUT [mkCard 1 1 "high" 0] (some 1) (some 1) (some "high") (some 5)).1
        ≠ MoveStatus.badRequest
      ∧ (movePUT [mkCard 1 1 "high" 0] (some 1) (some 1) (some "high") (some 5)).2
        ≠ [mkCard 1 1 "high" 0]) := by
  decide

/-- C6 (amended): the endpoint's 400 guard checks only JavaScript
truthiness of the four request fields.  It answers 400 — with the store
untouched — exactly when a required field is absent or falsy; a present
non-empty priority outside high/medium/low, or an out-of-range position,
is not rejected and the request proceeds to write. -/
theorem C6_badRequest_iff (db : List Card) (cardId boardId : Option Int)
    (newPriority : Option String) (newPosition : Option Int) :
    movePUT db cardId boardId newPriority newPosition = (.badRequest, db)
      ↔ missingFields cardId boardId newPriority newPosition = true := by
  constructor
  · intro h
    by_contra hmf
    unfold movePUT at h
    rw [if_neg hmf] at h
    cases hfind : db.find? (fun c => decide (c.id = cardId.getD 0)) with
    | none => rw [hfind] at h; exact MoveStatus.noConfusion (congrArg Prod.fst h)
    | some d => rw [hfind] at h; exact MoveStatus.noConfusion (congrArg Prod.fst h)
  · intro h
    unfold movePUT
    rw [if_pos h]

/-- C8: `createCard` on a group holding exactly one card, at position 0,
assigns the new card position 0 as well instead of the group size 1: the
JavaScript `(max_pos || -1) + 1` treats the stored maximum 0 as falsy, so
the two cards end up sharing position 0. -/
theorem C8_createCard_zero_max_bug :
    (groupCards [mkCard 1 1 "high" 0] 1 "high").length = 1
      ∧ (createCard [mkCard 1 1 "high" 0] 2 1 "t" none none "high" "not_started").map
          (fun c => c.position) = [0, 0] := by
  decide

/-- C10: the endpoint looks the card up by id alone and scopes every shift
by the request's boardId without checking it against the card's stored
board.  Concretely: card 1 lives on board 1, the request names board 2;
the endpoint still answers success, the shifts only touch board 2 (which
does not contain the card), the card's own board gets no compensating
shift, and the (board 1, high) group is left with positions other than
0..n−1. -/
theorem C10_board_mismatch_unchecked :
    invariant [mkCard 1 1 "high" 0, mkCard 2 1 "high" 1, mkCard 3 2 "high" 0]
    ∧ movePUT [mkCard 1 1 "high" 0, mkCard 2 1 "high" 1, mkCard 3 2 "high" 0]
        (some 1) (some 2) (some "medium") (some 0)
      = (.ok, [mkCard 1 1 "medium" 0, mkCard 2 1 "high" 1, mkCard 3 2 "high" 0])
    ∧ ¬ invariantGroup
        (movePUT [mkCard 1 1 "high" 0, mkCard 2 1 "high" 1, mkCard 3 2 "high" 0]
          (some 1) (some 2) (some "medium") (some 0)).2 1 "high" :=
  ⟨(invariant_iff_on _).mpr (by decide), by decide, by decide⟩

/-- C1 counterexample: as stated — without requiring the request's boardId
to be the moved card's board — the claim fails.  The store satisfies the
invariant, the card exists, "medium" is a valid priority and position 0 is
in range of the empty target group, yet after the move the (board 1, high)
group holds position set 1 instead of 0. -/
theorem C1_counterexample :
    invariant [mkCard 1 1 "high" 0, mkCard 2 1 "high" 1]
    ∧ mkCard 1 1 "high" 0 ∈ [mkCard 1 1 "high" 0, mkCard 2 1 "high" 1]
    ∧ ("medium" = "high" ∨ "medium" = "medium" ∨ "medium" = "low")
    ∧ ((0 : Int) ≤ 0
      ∧ (0 : Int) ≤ ((groupCards [mkCard 1 1 "high" 0, mkCard 2 1 "high" 1] 2 "medium").filter
          (fun c => decide (¬ c.id = 1))).length)
    ∧ (movePUT [mkCard 1 1 "high" 0, mkCard 2 1 "high" 1]
        (some 1) (some 2) (some "medium") (some 0)).1 = .ok
    ∧ ¬ invariantGroup (movePUT [mkCard 1 1 "high" 0, mkCard 2 1 "high" 1]
        (some 1) (some 2) (some "medium") (some 0)).2 1 "high" :=
  ⟨(invariant_iff_on _).mpr (by decide), by decide, by decide, by decide, by decide, by decide⟩

/-- Peel the unique row with a given id out of a `countP`. -/
theorem countP_key_split (db : List Card) (c₀ : Card)
    (hnd : (db.map (fun c => c.id)).Nodup) (hmem : c₀ ∈ db) (P : Card → Bool) :
    db.countP P
      = (if P c₀ then 1 else 0)
        + db.countP (fun c => !(decide (c.id = c₀.id)) && P c) := by
  rw [countP_split db P (fun c => decide (c.id = c₀.id))]
  congr 1
  · rw [← countP_key hnd hmem P]
    apply List.countP_congr
    intro x _
    simp [Bool.and_comm]
  · apply List.countP_congr
    intro x _
    simp [Bool.and_comm]

/-- With distinct ids, deleting by id removes exactly the one row. -/
theorem deleteCard_eq_erase (db : List Card) (c₀ : Card)
    (hnd : (db.map (fun c => c.id)).Nodup) (hmem : c₀ ∈ db) :
    deleteCard db c₀.id = db.erase c₀ := by
  induction db with
  | nil => cases hmem
  | cons d l ih =>
    rw [List.map_cons, List.nodup_cons] at hnd
    unfold deleteCard
    rcases List.mem_cons.mp hmem with rfl | hm
    · rw [List.erase_cons_head, List.filter_cons_of_neg (by simp)]
      rw [List.filter_eq_self]
      intro a ha
      simp only [decide_eq_true_eq]
      intro hcontra
      exact hnd.1 (hcontra ▸ List.mem_map_of_mem (fun c => c.id) ha)
    · have hne : d.id ≠ c₀.id := by
        intro h
        exact hnd.1 (h ▸ List.mem_map_of_mem (fun c => c.id) hm)
      have hned : ¬ (d == c₀) = true := by
        simp only [beq_iff_eq]
        intro h
        exact hne (congrArg Card.id h)
      rw [List.erase_cons_tail hned, List.filter_cons_of_pos (by simpa using hne)]
      have := ih hnd.2 hm
      unfold deleteCard at this
      rw [this]

/-- C9 (amended): `deleteCard` issues a single DELETE and no renumbering:
the store afterwards is exactly the old store minus the deleted row — every
sibling keeps its old position — so whenever a sibling sat after the
deleted card, the column group is left with a gap instead of the claimed
dense 0..n−2 numbering. -/
theorem C9_delete_without_renumber (db : List Card) (c₀ : Card)
    (hnd : (db.map (fun c => c.id)).Nodup) (hmem : c₀ ∈ db)
    (hinv : invariant db)
    (hafter : c₀.position + 1 < ((groupCards db c₀.board_id c₀.priority).length : Int)) :
    deleteCard db c₀.id = db.erase c₀
      ∧ ¬ invariantGroup (deleteCard db c₀.id) c₀.board_id c₀.priority := by
  refine ⟨deleteCard_eq_erase db c₀ hnd hmem, ?_⟩
  intro hdense
  have hd : dense (groupPos db c₀.board_id c₀.priority) := hinv c₀.board_id c₀.priority
  have hlenG : (groupPos db c₀.board_id c₀.priority).length
      = (groupCards db c₀.board_id c₀.priority).length := List.length_map _ _
  have hcnt := (dense_iff_count _).mp hd
  rw [hlenG] at hcnt
  have hposmem : c₀.position ∈ groupPos db c₀.board_id c₀.priority :=
    List.mem_map_of_mem _ (List.mem_filter.mpr ⟨hmem, by simp⟩)
  have hcpos : 0 < (groupPos db c₀.board_id c₀.priority).count c₀.position :=
    List.count_pos_iff.mpr hposmem
  have hlb : 0 ≤ c₀.position := by
    have h := hcnt c₀.position
    by_cases hc : 0 ≤ c₀.position ∧ c₀.position < ((groupCards db c₀.board_id c₀.priority).length : Int)
    · exact hc.1
    · rw [if_neg hc] at h
      omega
  have htrans : ∀ k : Int,
      (groupPos db c₀.board_id c₀.priority).count k
        = (if (c₀.board_id = c₀.board_id ∧ c₀.priority = c₀.priority) ∧ c₀.position = k then 1 else 0)
          + (groupPos (deleteCard db c₀.id) c₀.board_id c₀.priority).count k := by
    intro k
    rw [count_groupPos, count_groupPos]
    unfold deleteCard
    rw [List.countP_filter]
    rw [countP_key_split db c₀ hnd hmem
      (fun c => decide ((c.board_id = c₀.board_id ∧ c.priority = c₀.priority) ∧ c.position = k))]
    congr 1
    · simp
    · apply List.countP_congr
      intro x _
      simp only [Bool.and_eq_true, decide_eq_true_eq, Bool.not_eq_true', decide_eq_false_iff_not]
      tauto
  have hlen : (groupCards (deleteCard db c₀.id) c₀.board_id c₀.priority).length + 1
      = (groupCards db c₀.board_id c₀.priority).length := by
    rw [length_groupCards, length_groupCards]
    unfold deleteCard
    rw [List.countP_filter]
    rw [countP_key_split db c₀ hnd hmem
      (fun c => decide (c.board_id = c₀.board_id ∧ c.priority = c₀.priority))]
    rw [if_pos (by simp)]
    have hcomm : db.countP (fun c =>
          decide (c.board_id = c₀.board_id ∧ c.priority = c₀.priority) && decide (¬ c.id = c₀.id))
        = db.countP (fun c =>
          !(decide (c.id = c₀.id)) && decide (c.board_id = c₀.board_id ∧ c.priority = c₀.priority)) := by
      apply List.countP_congr
      intro x _
      simp only [Bool.and_eq_true, decide_eq_true_eq, Bool.not_eq_true', decide_eq_false_iff_not]
      tauto
    omega
  have hlen2 : ((groupPos (deleteCard db c₀.id) c₀.board_id c₀.priority).length : Int)
      = ((groupCards db c₀.board_id c₀.priority).length : Int) - 1 := by
    unfold groupPos
    rw [List.length_map]
    omega
  have htop := htrans (((groupCards db c₀.board_id c₀.priority).length : Int) - 1)
  rw [hcnt, if_pos (by omega), if_neg (by rintro ⟨-, h⟩; omega)] at htop
  have hdc := (dense_iff_count _).mp hdense
    (((groupCards db c₀.board_id c₀.priority).length : Int) - 1)
  rw [hlen2, if_neg (by omega)] at hdc
  omega

/-- C9 counterexample to the claim as stated: deleting the position-0 card
of the two-card group leaves the sibling at position 1 — it is not
decremented to 0 — and the group is no longer dense. -/
theorem C9_counterexample :
    (deleteCard [mkCard 1 1 "high" 0, mkCard 2 1 "high" 1] 1).map (fun c => c.position) = [1]
      ∧ ¬ invariantGroup (deleteCard [mkCard 1 1 "high" 0, mkCard 2 1 "high" 1] 1) 1 "high" := by
  decide

/-- Witness for the amended C9 theorem on the concrete two-card group. -/
theorem C9_delete_without_renumber_witness :
    deleteCard [mkCard 1 1 "high" 0, mkCard 2 1 "high" 1] 1
        = [mkCard 1 1 "high" 0, mkCard 2 1 "high" 1].erase (mkCard 1 1 "high" 0)
      ∧ ¬ invariantGroup (deleteCard [mkCard 1 1 "high" 0, mkCard 2 1 "high" 1] 1) 1 "high" :=
  C9_delete_without_renumber [mkCard 1 1 "high" 0, mkCard 2 1 "high" 1] (mkCard 1 1 "high" 0)
    (by decide) (by decide) ((invariant_iff_on _).mpr (by decide)) (by decide)

/-- C4: on the snapshot the client actually holds — the request board's
own card list — the optimistic prediction of `handleMoveCard` and the
store produced by the move endpoint assign every card the same priority
and position (indeed the very same card list), whether or not the card
exists. -/
theorem C4_optimistic_matches_server (cards : List Card) (cid bid : Int)
    (newP : String) (newPos : Int)
    (h1 : cid ≠ 0) (h2 : bid ≠ 0) (h3 : newP ≠ "")
    (hb : ∀ c ∈ cards, c.board_id = bid) :
    (movePUT cards (some cid) (some bid) (some newP) (some newPos)).2
      = optimisticCards cards cid newP newPos := by
  unfold optimisticCards
  cases hfind : cards.find? (fun c => decide (c.id = cid)) with
  | none =>
    unfold movePUT
    have hmf : missingFields (some cid) (some bid) (some newP) (some newPos) = false := by
      simp [missingFields, truthyInt, truthyStr, h1, h2, h3]
    rw [hmf]
    simp only [Bool.false_eq_true, if_false, Option.getD_some]
    rw [hfind]
  | some c₁ =>
    have hc₁id : c₁.id = cid := by
      simpa using List.find?_some hfind
    rw [← hc₁id] at hfind ⊢
    rw [movePUT_found cards c₁ bid newP newPos hfind (hc₁id ▸ h1) h2 h3]
    apply List.map_congr_left
    intro c hc
    have hcb : c.board_id = bid := hb c hc
    unfold moveFn
    by_cases hid : c.id = c₁.id
    · rw [if_pos hid, if_pos hid]
    · rw [if_neg hid, if_neg hid]
      by_cases hpp : c₁.priority = newP
      · rw [if_neg (show ¬ (c₁.priority ≠ newP) from not_not_intro hpp)]
        rw [if_neg (show ¬ (c₁.priority ≠ newP ∧ c.priority = c₁.priority
            ∧ c₁.position < c.position) from fun h => h.1 hpp)]
        rw [if_neg (show ¬ (c₁.priority ≠ newP ∧ c.priority = newP
            ∧ newPos ≤ c.position) from fun h => h.1 hpp)]
        by_cases hcp : c.priority = c₁.priority
        · rw [if_pos (show c₁.priority = newP ∧ c.priority = c₁.priority from ⟨hpp, hcp⟩)]
          by_cases hint : c₁.position < c.position ∧ c.position ≤ newPos
          · rw [if_pos (show c.board_id = bid ∧ c.priority = c₁.priority
                ∧ c₁.position < c.position ∧ c.position ≤ newPos
                from ⟨hcb, hcp, hint.1, hint.2⟩)]
            rw [if_pos (show c₁.position < newPos ∧ c₁.position < c.position
                ∧ c.position ≤ newPos from ⟨by omega, hint.1, hint.2⟩)]
          · rw [if_neg (show ¬ (c.board_id = bid ∧ c.priority = c₁.priority
                ∧ c₁.position < c.position ∧ c.position ≤ newPos)
                from fun h => hint ⟨h.2.2.1, h.2.2.2⟩)]
            rw [if_neg (show ¬ (c₁.position < newPos ∧ c₁.position < c.position
                ∧ c.position ≤ newPos) from fun h => hint ⟨h.2.1, h.2.2⟩)]
            by_cases hint2 : newPos ≤ c.position ∧ c.position < c₁.position
            · rw [if_pos (show c.board_id = bid ∧ c.priority = c₁.priority
                  ∧ newPos ≤ c.position ∧ c.position < c₁.position
                  from ⟨hcb, hcp, hint2.1, hint2.2⟩)]
              rw [if_pos (show newPos < c₁.position ∧ newPos ≤ c.position
                  ∧ c.position < c₁.position from ⟨by omega, hint2.1, hint2.2⟩)]
            · rw [if_neg (show ¬ (c.board_id = bid ∧ c.priority = c₁.priority
                  ∧ newPos ≤ c.position ∧ c.position < c₁.position)
                  from fun h => hint2 ⟨h.2.2.1, h.2.2.2⟩)]
              rw [if_neg (show ¬ (newPos < c₁.position ∧ newPos ≤ c.position
                  ∧ c.position < c₁.position) from fun h => hint2 ⟨h.2.1, h.2.2⟩)]
        · rw [if_neg (show ¬ (c.board_id = bid ∧ c.priority = c₁.priority
              ∧ c₁.position < c.position ∧ c.position ≤ newPos) from fun h => hcp h.2.1)]
          rw [if_neg (show ¬ (c.board_id = bid ∧ c.priority = c₁.priority
              ∧ newPos ≤ c.position ∧ c.position < c₁.position) from fun h => hcp h.2.1)]
          rw [if_neg (show ¬ (c₁.priority = newP ∧ c.priority = c₁.priority)
              from fun h => hcp h.2)]
      · rw [if_pos (show c₁.priority ≠ newP from hpp)]
        by_cases hd1 : c.priority = c₁.priority ∧ c₁.position < c.position
        · rw [if_pos (show c.board_id = bid ∧ c.priority = c₁.priority
              ∧ c₁.position < c.position from ⟨hcb, hd1.1, hd1.2⟩)]
          rw [if_pos (show c₁.priority ≠ newP ∧ c.priority = c₁.priority
              ∧ c₁.position < c.position from ⟨hpp, hd1.1, hd1.2⟩)]
        · rw [if_neg (show ¬ (c.board_id = bid ∧ c.priority = c₁.priority
              ∧ c₁.position < c.position) from fun h => hd1 ⟨h.2.1, h.2.2⟩)]
          rw [if_neg (show ¬ (c₁.priority ≠ newP ∧ c.priority = c₁.priority
              ∧ c₁.position < c.position) from fun h => hd1 ⟨h.2.1, h.2.2⟩)]
          by_cases hd2 : c.priority = newP ∧ newPos ≤ c.position
          · rw [if_pos (show c.board_id = bid ∧ c.priority = newP
                ∧ newPos ≤ c.position from ⟨hcb, hd2.1, hd2.2⟩)]
            rw [if_pos (show c₁.priority ≠ newP ∧ c.priority = newP
                ∧ newPos ≤ c.position from ⟨hpp, hd2.1, hd2.2⟩)]
          · rw [if_neg (show ¬ (c.board_id = bid ∧ c.priority = newP
                ∧ newPos ≤ c.position) from fun h => hd2 ⟨h.2.1, h.2.2⟩)]
            rw [if_neg (show ¬ (c₁.priority ≠ newP ∧ c.priority = newP
                ∧ newPos ≤ c.position) from fun h => hd2 ⟨h.2.1, h.2.2⟩)]
            rw [if_neg (show ¬ (c₁.priority = newP ∧ c.priority = c₁.priority)
                from fun h => hpp h.1)]

/-- Witness for C4: a cross-column insert at the head of the medium
column, predicted and reconciled identically. -/
theorem C4_optimistic_matches_server_witness :
    (movePUT [mkCard 1 1 "high" 0, mkCard 2 1 "high" 1, mkCard 3 1 "medium" 0]
        (some 1) (some 1) (some "medium") (some 0)).2
      = optimisticCards [mkCard 1 1 "high" 0, mkCard 2 1 "high" 1, mkCard 3 1 "medium" 0]
          1 "medium" 0 :=
  C4_optimistic_matches_server [mkCard 1 1 "high" 0, mkCard 2 1 "high" 1, mkCard 3 1 "medium" 0]
    1 1 "medium" 0 (by decide) (by decide) (by decide) (by decide)

theorem moveFn_board_id (cid B : Int) (oldP : String) (oldPos : Int)
    (newP : String) (newPos : Int) (c : Card) :
    (moveFn cid B oldP oldPos newP newPos c).board_id = c.board_id := by
  unfold moveFn
  split_ifs <;> simp

theorem moveFn_priority_ne {cid : Int} {c : Card} (B : Int) (oldP : String) (oldPos : Int)
    (newP : String) (newPos : Int) (h : c.id ≠ cid) :
    (moveFn cid B oldP oldPos newP newPos c).priority = c.priority := by
  unfold moveFn
  rw [if_neg h]
  split_ifs <;> simp

theorem moveFn_of_cid {cid : Int} {c : Card} (B : Int) (oldP : String) (oldPos : Int)
    (newP : String) (newPos : Int) (h : c.id = cid) :
    moveFn cid B oldP oldPos newP newPos c = setPrioPos c newP newPos := by
  unfold moveFn
  rw [if_pos h]

theorem moveFn_other {cid B : Int} {oldP : String} {oldPos : Int}
    {newP : String} {newPos : Int} {c : Card} (h : c.id ≠ cid)
    (h1 : ¬ (c.board_id = B ∧ c.priority = oldP))
    (h2 : ¬ (c.board_id = B ∧ c.priority = newP)) :
    moveFn cid B oldP oldPos newP newPos c = c := by
  unfold moveFn
  rw [if_neg h]
  split_ifs <;> first | rfl | (exfalso; tauto)

theorem moveFn_src_cross {cid B : Int} {oldP : String} {oldPos : Int}
    {newP : String} {newPos : Int} {c : Card} (h : c.id ≠ cid)
    (hcross : oldP ≠ newP) (hm : c.board_id = B ∧ c.priority = oldP) :
    moveFn cid B oldP oldPos newP newPos c
      = if oldPos < c.position then setPos c (c.position - 1) else c := by
  unfold moveFn
  rw [if_neg h, if_pos hcross]
  by_cases hx : oldPos < c.position
  · rw [if_pos ⟨hm.1, hm.2, hx⟩, if_pos hx]
  · rw [if_neg (fun hh => hx hh.2.2), if_neg (fun hh => hcross (hm.2.symm.trans hh.2.1)),
      if_neg hx]

theorem moveFn_tgt_cross {cid B : Int} {oldP : String} {oldPos : Int}
    {newP : String} {newPos : Int} {c : Card} (h : c.id ≠ cid)
    (hcross : oldP ≠ newP) (hm : c.board_id = B ∧ c.priority = newP) :
    moveFn cid B oldP oldPos newP newPos c
      = if newPos ≤ c.position then setPos c (c.position + 1) else c := by
  unfold moveFn
  rw [if_neg h, if_pos hcross]
  rw [if_neg (fun hh => hcross (hh.2.1.symm.trans hm.2))]
  by_cases hx : newPos ≤ c.position
  · rw [if_pos ⟨hm.1, hm.2, hx⟩, if_pos hx]
  · rw [if_neg (fun hh => hx hh.2.2), if_neg hx]

theorem moveFn_same {cid B : Int} {oldP : String} {oldPos : Int}
    {newPos : Int} {c : Card} (h : c.id ≠ cid)
    (hm : c.board_id = B ∧ c.priority = oldP) :
    moveFn cid B oldP oldPos oldP newPos c
      = if oldPos < c.position ∧ c.position ≤ newPos then setPos c (c.position - 1)
        else if newPos ≤ c.position ∧ c.position < oldPos then setPos c (c.position + 1)
        else c := by
  unfold moveFn
  rw [if_neg h, if_neg (show ¬ (oldP ≠ oldP) by simp)]
  by_cases hx : oldPos < c.position ∧ c.position ≤ newPos
  · rw [if_pos ⟨hm.1, hm.2, hx.1, hx.2⟩, if_pos hx]
  · rw [if_neg (fun hh => hx ⟨hh.2.2.1, hh.2.2.2⟩)]
    by_cases hy : newPos ≤ c.position ∧ c.position < oldPos
    · rw [if_pos ⟨hm.1, hm.2, hy.1, hy.2⟩, if_neg hx, if_pos hy]
    · rw [if_neg (fun hh => hy ⟨hh.2.2.1, hh.2.2.2⟩), if_neg hx, if_neg hy]

/-- Exchange a per-row predicate against another that agrees on every row
except possibly the one with the distinguished id. -/
theorem count_transfer (db : List Card) (c₀ : Card)
    (hnd : (db.map (fun c => c.id)).Nodup) (hmem : c₀ ∈ db) (P Q : Card → Bool)
    (hpt : ∀ c ∈ db, c.id ≠ c₀.id → P c = Q c) :
    db.countP P + (if Q c₀ then 1 else 0)
      = db.countP Q + (if P c₀ then 1 else 0) := by
  rw [countP_key_split db c₀ hnd hmem P, countP_key_split db c₀ hnd hmem Q]
  have hsame : db.countP (fun c => !(decide (c.id = c₀.id)) && P c)
      = db.countP (fun c => !(decide (c.id = c₀.id)) && Q c) := by
    apply List.countP_congr
    intro x hx
    by_cases hxid : x.id = c₀.id
    · simp [hxid]
    · simp [hxid, hpt x hx hxid]
  omega

/-- Positions list and rows list of a group have the same length. -/
theorem length_groupPos (db : List Card) (b : Int) (p : String) :
    (groupPos db b p).length = (groupCards db b p).length := by
  unfold groupPos
  exact List.length_map _ _

/-- Group-membership count of a mapped store as a `countP` over the
original store. -/
theorem count_groupPos_map (db : List Card) (f : Card → Card) (b : Int) (p : String) (k : Int) :
    (groupPos (db.map f) b p).count k
      = db.countP (fun c => decide (((f c).board_id = b ∧ (f c).priority = p)
          ∧ (f c).position = k)) := by
  rw [count_groupPos, List.countP_map]
  apply List.countP_congr
  intro x _
  simp [Function.comp]

/-- Group size of a mapped store as a `countP` over the original store. -/
theorem length_groupCards_map (db : List Card) (f : Card → Card) (b : Int) (p : String) :
    (groupCards (db.map f) b p).length
      = db.countP (fun c => decide ((f c).board_id = b ∧ (f c).priority = p)) := by
  rw [length_groupCards, List.countP_map]
  apply List.countP_congr
  intro x _
  simp [Function.comp]

/-- A column group other than the move's source and target groups keeps
exactly its rows and positions under the move's per-row function. -/
theorem moveFn_untouched_group (db : List Card) (c₀ : Card) (cid B : Int)
    (oldP : String) (oldPos : Int) (newP : String) (newPos : Int) (b : Int) (p : String)
    (hnd : (db.map (fun c => c.id)).Nodup) (hmem : c₀ ∈ db)
    (hid : c₀.id = cid) (hB : c₀.board_id = B) (hop : c₀.priority = oldP)
    (hgO : ¬ (B = b ∧ oldP = p)) (hgN : ¬ (B = b ∧ newP = p))
    (hinvbp : invariantGroup db b p) :
    dense (groupPos (db.map (moveFn cid B oldP oldPos newP newPos)) b p) := by
  have hFc₀ : moveFn cid B oldP oldPos newP newPos c₀ = setPrioPos c₀ newP newPos :=
    moveFn_of_cid B oldP oldPos newP newPos hid
  rw [dense_iff_count]
  intro k
  rw [length_groupPos, count_groupPos_map]
  have ht := count_transfer db c₀ hnd hmem
    (fun c => decide (((moveFn cid B oldP oldPos newP newPos c).board_id = b
      ∧ (moveFn cid B oldP oldPos newP newPos c).priority = p)
      ∧ (moveFn cid B oldP oldPos newP newPos c).position = k))
    (fun c => decide ((c.board_id = b ∧ c.priority = p) ∧ c.position = k))
    (fun c _ hc => by
      rw [decide_eq_decide]
      by_cases hm : c.board_id = b ∧ c.priority = p
      · have hfc : moveFn cid B oldP oldPos newP newPos c = c :=
          moveFn_other (hid ▸ hc)
            (fun hh => hgO ⟨hh.1.symm.trans hm.1, hh.2.symm.trans hm.2⟩)
            (fun hh => hgN ⟨hh.1.symm.trans hm.1, hh.2.symm.trans hm.2⟩)
        rw [hfc]
      · constructor
        · rintro ⟨hmm, -⟩
          exact absurd ⟨(moveFn_board_id cid B oldP oldPos newP newPos c).symm.trans hmm.1,
            (moveFn_priority_ne B oldP oldPos newP newPos (hid ▸ hc)).symm.trans hmm.2⟩ hm
        · rintro ⟨hmm, -⟩
          exact absurd hmm hm)
  have hmem0 : ¬ (c₀.board_id = b ∧ c₀.priority = p) :=
    fun hh => hgO ⟨hB.symm.trans hh.1, hop.symm.trans hh.2⟩
  have hmemF0 : ¬ (c₀.board_id = b ∧ newP = p) :=
    fun hh => hgN ⟨hB.symm.trans hh.1, hh.2⟩
  simp only [hFc₀, setPrioPos_board_id, setPrioPos_priority, setPrioPos_position,
    decide_eq_true_eq] at ht
  rw [if_neg (fun hh => hmem0 hh.1), if_neg (fun hh => hmemF0 hh.1)] at ht
  rw [← count_groupPos] at ht
  have hL := count_transfer db c₀ hnd hmem
    (fun c => decide ((moveFn cid B oldP oldPos newP newPos c).board_id = b
      ∧ (moveFn cid B oldP oldPos newP newPos c).priority = p))
    (fun c => decide (c.board_id = b ∧ c.priority = p))
    (fun c _ hc => by
      rw [decide_eq_decide, moveFn_board_id,
        moveFn_priority_ne B oldP oldPos newP newPos (hid ▸ hc)])
  simp only [hFc₀, setPrioPos_board_id, setPrioPos_priority, decide_eq_true_eq] at hL
  rw [if_neg hmem0, if_neg hmemF0] at hL
  rw [← length_groupCards, ← length_groupCards_map] at hL
  have hcnt := (dense_iff_count _).mp hinvbp k
  rw [length_groupPos] at hcnt
  split_ifs at hcnt ⊢ <;> omega

set_option maxHeartbeats 2000000 in
/-- The per-row move function preserves the whole-store position
invariant, provided the request's board is the moved card's own board and
the target position is within the target group (group size counted without
the moved card). -/
theorem moveFn_invariant (db : List Card) (c₀ : Card) (cid B : Int)
    (oldP : String) (oldPos : Int) (newP : String) (newPos : Int)
    (hnd : (db.map (fun c => c.id)).Nodup) (hinv : invariant db) (hmem : c₀ ∈ db)
    (hid : c₀.id = cid) (hB : c₀.board_id = B)
    (hop : c₀.priority = oldP) (hopos : c₀.position = oldPos)
    (hlo : 0 ≤ newPos)
    (hhi : newPos + (if oldP = newP then 1 else 0) ≤ ((groupCards db B newP).length : Int)) :
    invariant (db.map (moveFn cid B oldP oldPos newP newPos)) := by
  have hFc₀ : moveFn cid B oldP oldPos newP newPos c₀ = setPrioPos c₀ newP newPos :=
    moveFn_of_cid B oldP oldPos newP newPos hid
  have hcntOld := (dense_iff_count _).mp (hinv B oldP)
  rw [length_groupPos] at hcntOld
  have hmemG : c₀ ∈ groupCards db B oldP := List.mem_filter.mpr ⟨hmem, by simp [hB, hop]⟩
  have hposmem : oldPos ∈ groupPos db B oldP := by
    rw [← hopos]
    exact List.mem_map_of_mem _ hmemG
  have holdb : 0 ≤ oldPos ∧ oldPos < ((groupCards db B oldP).length : Int) := by
    have h := hcntOld oldPos
    have h2 : 0 < (groupPos db B oldP).count oldPos := List.count_pos_iff.mpr hposmem
    by_cases hc : 0 ≤ oldPos ∧ oldPos < ((groupCards db B oldP).length : Int)
    · exact hc
    · rw [if_neg hc] at h
      omega
  have hlen : ∀ b p,
      (groupCards (db.map (moveFn cid B oldP oldPos newP newPos)) b p).length
        + (if c₀.board_id = b ∧ c₀.priority = p then 1 else 0)
      = (groupCards db b p).length
        + (if c₀.board_id = b ∧ newP = p then 1 else 0) := by
    intro b p
    rw [length_groupCards_map, length_groupCards]
    have ht := count_transfer db c₀ hnd hmem
      (fun c => decide ((moveFn cid B oldP oldPos newP newPos c).board_id = b
        ∧ (moveFn cid B oldP oldPos newP newPos c).priority = p))
      (fun c => decide (c.board_id = b ∧ c.priority = p))
      (fun c _ hc => by
        rw [decide_eq_decide, moveFn_board_id,
          moveFn_priority_ne B oldP oldPos newP newPos (hid ▸ hc)])
    simp only [hFc₀, setPrioPos_board_id, setPrioPos_priority, decide_eq_true_eq] at ht
    omega
  intro b p
  unfold invariantGroup
  by_cases hsame : oldP = newP
  · -- same-column move: only the card's own group shifts, and only between
    -- the old and new position
    subst hsame
    by_cases hgrp : B = b ∧ oldP = p
    · obtain ⟨rfl, rfl⟩ := hgrp
      rw [dense_iff_count]
      intro k
      rw [length_groupPos, count_groupPos_map]
      have ht := count_transfer db c₀ hnd hmem
        (fun c => decide (((moveFn cid B oldP oldPos oldP newPos c).board_id = B
          ∧ (moveFn cid B oldP oldPos oldP newPos c).priority = oldP)
          ∧ (moveFn cid B oldP oldPos oldP newPos c).position = k))
        (fun c => decide ((c.board_id = B ∧ c.priority = oldP)
          ∧ (if oldPos < c.position ∧ c.position ≤ newPos then c.position - 1
            else if newPos ≤ c.position ∧ c.position < oldPos then c.position + 1
            else c.position) = k))
        (fun c _ hc => by
          rw [decide_eq_decide]
          by_cases hm : c.board_id = B ∧ c.priority = oldP
          · rw [moveFn_same (hid ▸ hc) hm]
            by_cases hx : oldPos < c.position ∧ c.position ≤ newPos
            · rw [if_pos hx, if_pos hx]
              try simp
            · rw [if_neg hx, if_neg hx]
              by_cases hy : newPos ≤ c.position ∧ c.position < oldPos
              · rw [if_pos hy, if_pos hy]
                try simp
              · rw [if_neg hy, if_neg hy]
                try simp
          · constructor
            · rintro ⟨hmm, -⟩
              exact absurd ⟨(moveFn_board_id cid B oldP oldPos oldP newPos c).symm.trans hmm.1,
                (moveFn_priority_ne B oldP oldPos oldP newPos (hid ▸ hc)).symm.trans hmm.2⟩ hm
            · rintro ⟨hmm, -⟩
              exact absurd hmm hm)
      simp only [hFc₀, setPrioPos_board_id, setPrioPos_priority, setPrioPos_position,
        hB, hop, hopos, lt_self_iff_false, false_and, and_false, if_false,
        and_true, true_and, eq_self_iff_true, decide_eq_true_eq] at ht
      have hL := hlen B oldP
      rw [if_pos ⟨hB, hop⟩, if_pos ⟨hB, rfl⟩] at hL
      rw [if_pos rfl] at hhi
      by_cases hud : oldPos < newPos
      · have hQval : db.countP (fun c => decide ((c.board_id = B ∧ c.priority = oldP)
            ∧ (if oldPos < c.position ∧ c.position ≤ newPos then c.position - 1
              else if newPos ≤ c.position ∧ c.position < oldPos then c.position + 1
              else c.position) = k))
            = (if oldPos < k + 1 ∧ k + 1 ≤ newPos then (groupPos db B oldP).count (k + 1) else 0)
              + (if ¬ (oldPos < k ∧ k ≤ newPos) then (groupPos db B oldP).count k else 0) := by
          rw [← countP_shiftdown (groupPos db B oldP)
            (fun x => oldPos < x ∧ x ≤ newPos) k]
          rw [countP_groupPos]
          apply List.countP_congr
          intro x _
          have hfx : (if oldPos < x.position ∧ x.position ≤ newPos then x.position - 1
              else if newPos ≤ x.position ∧ x.position < oldPos then x.position + 1
              else x.position)
              = (if oldPos < x.position ∧ x.position ≤ newPos then x.position - 1
                else x.position) := by
            by_cases hC : oldPos < x.position ∧ x.position ≤ newPos
            · rw [if_pos hC, if_pos hC]
            · rw [if_neg hC, if_neg hC, if_neg (by omega)]
          rw [hfx]
          simp only [Bool.and_eq_true, decide_eq_true_eq]
          try tauto
        have hc1 := hcntOld (k + 1)
        have hc2 := hcntOld k
        split_ifs at ht hQval hc1 hc2 ⊢ <;> omega
      · by_cases hdu : newPos < oldPos
        · have hQval : db.countP (fun c => decide ((c.board_id = B ∧ c.priority = oldP)
              ∧ (if oldPos < c.position ∧ c.position ≤ newPos then c.position - 1
                else if newPos ≤ c.position ∧ c.position < oldPos then c.position + 1
                else c.position) = k))
              = (if newPos ≤ k - 1 ∧ k - 1 < oldPos then (groupPos db B oldP).count (k - 1) else 0)
                + (if ¬ (newPos ≤ k ∧ k < oldPos) then (groupPos db B oldP).count k else 0) := by
            rw [← countP_shiftup (groupPos db B oldP)
              (fun x => newPos ≤ x ∧ x < oldPos) k]
            rw [countP_groupPos]
            apply List.countP_congr
            intro x _
            have hfx : (if oldPos < x.position ∧ x.position ≤ newPos then x.position - 1
                else if newPos ≤ x.position ∧ x.position < oldPos then x.position + 1
                else x.position)
                = (if newPos ≤ x.position ∧ x.position < oldPos then x.position + 1
                  else x.position) := by
              by_cases hC : newPos ≤ x.position ∧ x.position < oldPos
              · rw [if_neg (by omega), if_pos hC]
              · rw [if_neg (by omega), if_neg hC]
            rw [hfx]
            simp only [Bool.and_eq_true, decide_eq_true_eq]
            try tauto
          have hc1 := hcntOld (k - 1)
          have hc2 := hcntOld k
          split_ifs at ht hQval hc1 hc2 ⊢ <;> omega
        · have heq : oldPos = newPos := by omega
          have hQval : db.countP (fun c => decide ((c.board_id = B ∧ c.priority = oldP)
              ∧ (if oldPos < c.position ∧ c.position ≤ newPos then c.position - 1
                else if newPos ≤ c.position ∧ c.position < oldPos then c.position + 1
                else c.position) = k))
              = (groupPos db B oldP).count k := by
            rw [count_groupPos]
            apply List.countP_congr
            intro x _
            have hfx : (if oldPos < x.position ∧ x.position ≤ newPos then x.position - 1
                else if newPos ≤ x.position ∧ x.position < oldPos then x.position + 1
                else x.position) = x.position := by
              rw [if_neg (by omega), if_neg (by omega)]
            rw [hfx]
          have hc2 := hcntOld k
          split_ifs at ht hQval hc2 ⊢ <;> omega
    · exact moveFn_untouched_group db c₀ cid B oldP oldPos oldP newPos b p
        hnd hmem hid hB hop hgrp hgrp (hinv b p)
  · by_cases hgO : B = b ∧ oldP = p
    · obtain ⟨rfl, rfl⟩ := hgO
      rw [dense_iff_count]
      intro k
      rw [length_groupPos, count_groupPos_map]
      -- the source group of a cross-column move: close the gap above oldPos
      have ht := count_transfer db c₀ hnd hmem
        (fun c => decide (((moveFn cid B oldP oldPos newP newPos c).board_id = B
          ∧ (moveFn cid B oldP oldPos newP newPos c).priority = oldP)
          ∧ (moveFn cid B oldP oldPos newP newPos c).position = k))
        (fun c => decide ((c.board_id = B ∧ c.priority = oldP)
          ∧ (if oldPos < c.position then c.position - 1 else c.position) = k))
        (fun c _ hc => by
          rw [decide_eq_decide]
          by_cases hm : c.board_id = B ∧ c.priority = oldP
          · rw [moveFn_src_cross (hid ▸ hc) hsame hm]
            by_cases hx : oldPos < c.position
            · rw [if_pos hx, if_pos hx]
              try simp
            · rw [if_neg hx, if_neg hx]
              try simp
          · constructor
            · rintro ⟨hmm, -⟩
              exact absurd ⟨(moveFn_board_id cid B oldP oldPos newP newPos c).symm.trans hmm.1,
                (moveFn_priority_ne B oldP oldPos newP newPos (hid ▸ hc)).symm.trans hmm.2⟩ hm
            · rintro ⟨hmm, -⟩
              exact absurd hmm hm)
      have hne : ¬ (newP = oldP) := fun h => hsame h.symm
      simp only [hFc₀, setPrioPos_board_id, setPrioPos_priority, setPrioPos_position,
        hB, hop, hopos, lt_self_iff_false, if_false, and_true, true_and,
        eq_self_iff_true, decide_eq_true_eq, hne, false_and, and_false] at ht
      have hQval : db.countP (fun c => decide ((c.board_id = B ∧ c.priority = oldP)
          ∧ (if oldPos < c.position then c.position - 1 else c.position) = k))
          = (if oldPos < k + 1 then (groupPos db B oldP).count (k + 1) else 0)
            + (if ¬ oldPos < k then (groupPos db B oldP).count k else 0) := by
        rw [← countP_shiftdown (groupPos db B oldP) (fun x => oldPos < x) k]
        rw [countP_groupPos]
        apply List.countP_congr
        intro x _
        simp only [Bool.and_eq_true, decide_eq_true_eq]
        try tauto
      have hc1 := hcntOld (k + 1)
      have hc2 := hcntOld k
      have hL := hlen B oldP
      rw [if_pos ⟨hB, hop⟩, if_neg (fun hh => hne hh.2)] at hL
      split_ifs at ht hQval hc1 hc2 ⊢ <;> omega
    · by_cases hgN : B = b ∧ newP = p
      · obtain ⟨rfl, rfl⟩ := hgN
        rw [dense_iff_count]
        intro k
        rw [length_groupPos, count_groupPos_map]
        -- the target group of a cross-column move: open a slot at newPos
        have ht := count_transfer db c₀ hnd hmem
          (fun c => decide (((moveFn cid B oldP oldPos newP newPos c).board_id = B
            ∧ (moveFn cid B oldP oldPos newP newPos c).priority = newP)
            ∧ (moveFn cid B oldP oldPos newP newPos c).position = k))
          (fun c => decide ((c.board_id = B ∧ c.priority = newP)
            ∧ (if newPos ≤ c.position then c.position + 1 else c.position) = k))
          (fun c _ hc => by
            rw [decide_eq_decide]
            by_cases hm : c.board_id = B ∧ c.priority = newP
            · rw [moveFn_tgt_cross (hid ▸ hc) hsame hm]
              by_cases hx : newPos ≤ c.position
              · rw [if_pos hx, if_pos hx]
                try simp
              · rw [if_neg hx, if_neg hx]
                try simp
            · constructor
              · rintro ⟨hmm, -⟩
                exact absurd ⟨(moveFn_board_id cid B oldP oldPos newP newPos c).symm.trans hmm.1,
                  (moveFn_priority_ne B oldP oldPos newP newPos (hid ▸ hc)).symm.trans hmm.2⟩ hm
              · rintro ⟨hmm, -⟩
                exact absurd hmm hm)
        simp only [hFc₀, setPrioPos_board_id, setPrioPos_priority, setPrioPos_position,
          hB, hop, hopos, and_true, true_and, eq_self_iff_true, decide_eq_true_eq,
          hsame, false_and, and_false, if_false] at ht
        have hQval : db.countP (fun c => decide ((c.board_id = B ∧ c.priority = newP)
            ∧ (if newPos ≤ c.position then c.position + 1 else c.position) = k))
            = (if newPos ≤ k - 1 then (groupPos db B newP).count (k - 1) else 0)
              + (if ¬ newPos ≤ k then (groupPos db B newP).count k else 0) := by
          rw [← countP_shiftup (groupPos db B newP) (fun x => newPos ≤ x) k]
          rw [countP_groupPos]
          apply List.countP_congr
          intro x _
          simp only [Bool.and_eq_true, decide_eq_true_eq]
          try tauto
        have hcntNew := (dense_iff_count _).mp (hinv B newP)
        rw [length_groupPos] at hcntNew
        have hc1 := hcntNew (k - 1)
        have hc2 := hcntNew k
        have hL := hlen B newP
        rw [if_neg (fun hh => hsame (hop.symm.trans hh.2)), if_pos ⟨hB, rfl⟩] at hL
        rw [if_neg hsame] at hhi
        split_ifs at ht hQval hc1 hc2 ⊢ <;> omega
      · exact moveFn_untouched_group db c₀ cid B oldP oldPos newP newPos b p
          hnd hmem hid hB hop hgO hgN (hinv b p)

/-- C1 (amended): for every store satisfying the position invariant and
every valid move request whose boardId equals the moved card's stored
board — the card exists, the target priority is one of high/medium/low,
and the target position lies in [0, groupSize] of the target group, the
size counted before insertion (without the moved card) — after the move
endpoint's writes every column group with n cards again holds positions
exactly 0..n−1, with no duplicates and no gaps.  (As frozen, without the
boardId condition, the claim fails; see the counterexample.) -/
theorem C1_valid_move_preserves_invariant (db : List Card) (c₀ : Card)
    (newP : String) (newPos : Int)
    (hnd : (db.map (fun c => c.id)).Nodup) (hinv : invariant db) (hmem : c₀ ∈ db)
    (h1 : c₀.id ≠ 0) (h2 : c₀.board_id ≠ 0)
    (hP : newP = "high" ∨ newP = "medium" ∨ newP = "low")
    (hlo : 0 ≤ newPos)
    (hhi : newPos ≤ (((groupCards db c₀.board_id newP).filter
        (fun c => decide (¬ c.id = c₀.id))).length : Int)) :
    invariant (movePUT db (some c₀.id) (some c₀.board_id) (some newP) (some newPos)).2 := by
  have h3 : newP ≠ "" := by
    rcases hP with h | h | h <;> simp [h]
  have e1 : ((groupCards db c₀.board_id newP).filter (fun c => decide (¬ c.id = c₀.id))).length
      = db.countP (fun c => !(decide (c.id = c₀.id))
          && decide (c.board_id = c₀.board_id ∧ c.priority = newP)) := by
    rw [← List.countP_eq_length_filter]
    unfold groupCards
    rw [List.countP_filter]
    apply List.countP_congr
    intro x _
    simp only [Bool.and_eq_true, decide_eq_true_eq, Bool.not_eq_true',
      decide_eq_false_iff_not]
    try tauto
  have e2 := countP_key_split db c₀ hnd hmem
    (fun c => decide (c.board_id = c₀.board_id ∧ c.priority = newP))
  have e3 : (if decide (c₀.board_id = c₀.board_id ∧ c₀.priority = newP) then 1 else 0)
      = (if c₀.priority = newP then 1 else 0) := by
    by_cases h : c₀.priority = newP <;> simp [h]
  have hfl : ((groupCards db c₀.board_id newP).filter
        (fun c => decide (¬ c.id = c₀.id))).length
      + (if c₀.priority = newP then 1 else 0)
      = (groupCards db c₀.board_id newP).length := by
    rw [length_groupCards, e1]
    omega
  rw [movePUT_found db c₀ c₀.board_id newP newPos (find?_id_eq hnd hmem) h1 h2 h3]
  refine moveFn_invariant db c₀ c₀.id c₀.board_id c₀.priority c₀.position newP newPos
    hnd hinv hmem rfl rfl rfl rfl hlo ?_
  by_cases h : c₀.priority = newP
  · rw [if_pos h]
    rw [if_pos h] at hfl
    omega
  · rw [if_neg h]
    rw [if_neg h] at hfl
    omega

/-- Witness for C1 on a concrete store: a cross-column move with a valid
request (matching board) leaves every group dense. -/
theorem C1_valid_move_preserves_invariant_witness :
    invariant (movePUT [mkCard 1 1 "high" 0, mkCard 2 1 "high" 1, mkCard 3 1 "medium" 0]
      (some 1) (some 1) (some "medium") (some 1)).2 :=
  C1_valid_move_preserves_invariant
    [mkCard 1 1 "high" 0, mkCard 2 1 "high" 1, mkCard 3 1 "medium" 0]
    (mkCard 1 1 "high" 0) "medium" 1
    (by decide) ((invariant_iff_on _).mpr (by decide)) (by decide)
    (by decide) (by decide) (Or.inr (Or.inl rfl)) (by decide) (by decide)
